import Mathlib

/-!
Shallow embedding of `scanGoogleapisGenAndCreatePullRequests` and its helper
`isCommitHashTooOld` from
`packages/owl-bot/src/scan-googleapis-gen-and-create-pull-requests.ts`.

External collaborators (git, the configs store, the copy-state ledger, the
tag derivation, the copy/PR operation) are modelled as function fields of a
`ScanEnv`; the scheduling core itself is translated line by line.
-/

namespace OwlBot

/-- An `.OwlBot.yaml` configuration; the only field the scheduling core reads
is `begin-after-commit-hash`, which may be absent. -/
structure OwlBotYaml where
  beginAfterCommitHash : Option String
deriving DecidableEq, Repr

/-- A parsed config together with the path of its yaml file in the repo
(`OwlBotYamlAndPath` in `configs-store.ts`). -/
structure OwlBotYamlAndPath where
  path : String
  yaml : OwlBotYaml
deriving DecidableEq, Repr

/-- One result entry of `configsStore.findReposAffectedByFileChanges`: a
destination repo (identified by its full name) and the subset of its configs
whose path rules matched. -/
structure AffectedRepo where
  repo : String
  yamls : List OwlBotYamlAndPath
deriving DecidableEq, Repr

/-- The in-memory work item pushed on the todo stack. -/
structure Todo where
  repo : String
  commitHash : String
  yamlPaths : List String
deriving DecidableEq, Repr

/-- JavaScript `String.prototype.trim`: strip leading and trailing
whitespace. -/
def jsTrim (s : String) : String :=
  ⟨((s.data.dropWhile Char.isWhitespace).reverse.dropWhile
      Char.isWhitespace).reverse⟩

/-- `yaml.yaml['begin-after-commit-hash']?.trim()` with JS `undefined`
collapsed to `""`: both are falsy in the `if (hash)` test of the source, so
the collapse is observation-preserving. -/
def trimmedBeginHash (y : OwlBotYamlAndPath) : String :=
  match y.yaml.beginAfterCommitHash with
  | some s => jsTrim s
  | none => ""

/-- The `for (const yaml of yamls ?? [])` loop of `isCommitHashTooOld`:
the first truthy trimmed `begin-after-commit-hash`, or `''` if none. -/
def firstBeginAfterCommitHash : List OwlBotYamlAndPath → String
  | [] => ""
  | y :: ys =>
    if trimmedBeginHash y ≠ "" then trimmedBeginHash y
    else firstBeginAfterCommitHash ys

/-- JavaScript `Array.prototype.indexOf`: index of the first occurrence, or
`-1` when the element is absent. -/
def jsIndexOf (l : List String) (a : String) : Int :=
  if a ∈ l then (List.indexOf a l : Int) else -1

/-- `isCommitHashTooOld(yamls, commitIndex, commitHashes)`: tests whether the
commit at `commitIndex` is at or before the first configured
`begin-after-commit-hash` boundary in the newest-to-oldest history
`commitHashes`. -/
def isCommitHashTooOld (yamls : Option (List OwlBotYamlAndPath))
    (commitIndex : Nat) (commitHashes : List String) : Bool :=
  let beginAfterCommitHash := firstBeginAfterCommitHash (yamls.getD [])
  let beginIndex : Int :=
    if beginAfterCommitHash ≠ "" then jsIndexOf commitHashes beginAfterCommitHash
    else -1
  decide (beginIndex ≥ 0) && decide (beginIndex ≤ (commitIndex : Int))

/-- The external collaborators of the scheduling core, at the interfaces the
source calls them through. `findBuildForCopy` returns the recorded build id,
or `none`; `copyTagFrom` is the deterministic tag derivation from
`copy-code.ts`. -/
structure ScanEnv where
  getFilesModifiedBySha : String → List String
  findReposAffectedByFileChanges : List String → List AffectedRepo
  findBuildForCopy : String → String → Option String
  copyTagFrom : String → String → String

/-- `f.startsWith('/')` from the source: for the one-character pattern `'/'`
this is exactly "the first character is `'/'`". -/
def startsWithSlash (f : String) : Bool := f.data.head? = some '/'

/-- `f => (f.startsWith('/') ? f : '/' + f)`. -/
def normalizePath (f : String) : String :=
  if startsWithSlash f then f else "/" ++ f

/-- The normalized `touchedFiles` list computed for one commit. -/
def touchedFilesFor (env : ScanEnv) (commitHash : String) : List String :=
  (env.getFilesModifiedBySha commitHash).map normalizePath

/-- `repos`: the affected repos the configs store reports for one commit. -/
def reposForCommit (env : ScanEnv) (commitHash : String) : List AffectedRepo :=
  env.findReposAffectedByFileChanges (touchedFilesFor env commitHash)

/-- JavaScript truthiness of the `copyBuildId` result (`if (copyBuildId)`):
`undefined` and the empty string are falsy. -/
def isTruthy : Option String → Bool
  | none => false
  | some s => decide (s ≠ "")

/-- The `todoYamls` list of the dedup-filter loop: the paths of the repo's
configs for which the copy-state ledger has no recorded build under
`(repo, copyTagFrom(path, commitHash))`. -/
def todoYamlsFor (env : ScanEnv) (repo : AffectedRepo) (commitHash : String) :
    List String :=
  (repo.yamls.filter fun y =>
    ! isTruthy (env.findBuildForCopy repo.repo
        (env.copyTagFrom y.path commitHash))).map (·.path)

/-- The work-aggregator step (source lines 160–173): when `todoYamls` is
non-empty, one combined `Todo` if its length exceeds `combinePullsThreshold`,
otherwise one `Todo` per config path. -/
def aggregateTodos (combinePullsThreshold : Nat) (repo commitHash : String)
    (todoYamls : List String) : List Todo :=
  if todoYamls.length > 0 then
    if todoYamls.length > combinePullsThreshold then
      [⟨repo, commitHash, todoYamls⟩]
    else
      todoYamls.map fun y => ⟨repo, commitHash, [y]⟩
  else []

/-- The body of `for (const repo of repos)`: the new todos contributed by one
affected repo for one commit (empty when the commit is too old for it). -/
def processRepo (env : ScanEnv) (combinePullsThreshold : Nat)
    (commitHashes : List String) (commitIndex : Nat) (commitHash : String)
    (repo : AffectedRepo) : List Todo :=
  if isCommitHashTooOld (some repo.yamls) commitIndex commitHashes then []
  else
    aggregateTodos combinePullsThreshold repo.repo commitHash
      (todoYamlsFor env repo commitHash)

/-- All todos pushed while processing one commit (the difference between
`todoStack` and `stackSize` in the source). -/
def commitTodos (env : ScanEnv) (combinePullsThreshold : Nat)
    (commitHashes : List String) (commitIndex : Nat) (commitHash : String) :
    List Todo :=
  (reposForCommit env commitHash).flatMap
    (processRepo env combinePullsThreshold commitHashes commitIndex commitHash)

/-- The `break` condition of the history loop:
`repos.length > 0 && todoStack.length === stackSize`. -/
def stopHere (env : ScanEnv) (combinePullsThreshold : Nat)
    (commitHashes : List String) (commitIndex : Nat) (commitHash : String) :
    Bool :=
  decide ((reposForCommit env commitHash).length > 0) &&
    (commitTodos env combinePullsThreshold commitHashes commitIndex
      commitHash).isEmpty

/-- The history-scanning loop: walks the remaining commit hashes carrying the
current todo stack; returns the final stack and the list of commits whose
touched files were actually examined (in examination order). -/
def scanFrom (env : ScanEnv) (combinePullsThreshold : Nat)
    (commitHashes : List String) :
    Nat → List String → List Todo → List Todo × List String
  | _, [], stack => (stack, [])
  | i, h :: rest, stack =>
    let stackAfter :=
      stack ++ commitTodos env combinePullsThreshold commitHashes i h
    if stopHere env combinePullsThreshold commitHashes i h then
      (stackAfter, [h])
    else
      let r := scanFrom env combinePullsThreshold commitHashes (i + 1) rest
        stackAfter
      (r.1, h :: r.2)

/-- The todo stack left by the scanning loop. -/
def scanTodoStack (env : ScanEnv) (combinePullsThreshold : Nat)
    (commitHashes : List String) : List Todo :=
  (scanFrom env combinePullsThreshold commitHashes 0 commitHashes []).1

/-- The commits the scanning loop examined, newest first. -/
def scannedCommits (env : ScanEnv) (combinePullsThreshold : Nat)
    (commitHashes : List String) : List String :=
  (scanFrom env combinePullsThreshold commitHashes 0 commitHashes []).2

/-- One invocation of `copyCodeAndAppendOrCreatePullRequest`, recording the
arguments the replay loop passes that vary per `Todo`. -/
structure CopyCall where
  sourceRepoCommitHash : String
  destRepo : String
  yamlPaths : List String
deriving DecidableEq, Repr

def copyCallOf (todo : Todo) : CopyCall :=
  ⟨todo.commitHash, todo.repo, todo.yamlPaths⟩

/-- The replay loop `for (const todo of todoStack.reverse())`: the sequence
of copy/PR invocations in temporal order. -/
def replayCalls (todoStack : List Todo) : List CopyCall :=
  todoStack.reverse.map copyCallOf

/-- The whole procedure's return value: `todoStack.length` after the replay
loop. -/
def scanGoogleapisGenAndCreatePullRequests (env : ScanEnv)
    (combinePullsThreshold : Nat) (commitHashes : List String) : Nat :=
  (scanTodoStack env combinePullsThreshold commitHashes).length

/-- Spec-side description of the scan window (section 4.1 step 6 of the
design): scanning examines commits newest-first and stops *inclusively* at
the first commit satisfying the stop condition; this function returns how
many commits that is (`none` when no commit triggers a stop). -/
def specStopPrefixLen (env : ScanEnv) (combinePullsThreshold : Nat)
    (commitHashes : List String) : Nat → List String → Option Nat
  | _, [] => none
  | i, h :: rest =>
    if stopHere env combinePullsThreshold commitHashes i h then some 1
    else (specStopPrefixLen env combinePullsThreshold commitHashes (i + 1)
      rest).map (· + 1)

/-- Spec-side description of the examined commits: the history truncated just
after the first stop-triggering commit, or the whole history when none
triggers a stop. -/
def specScannedCommits (env : ScanEnv) (combinePullsThreshold : Nat)
    (commitHashes : List String) : List String :=
  match specStopPrefixLen env combinePullsThreshold commitHashes 0
      commitHashes with
  | some n => commitHashes.take n
  | none => commitHashes

/-! ## Helper lemmas on the staleness filter -/

lemma firstBegin_all_empty {ys : List OwlBotYamlAndPath}
    (h : ∀ z ∈ ys, trimmedBeginHash z = "") :
    firstBeginAfterCommitHash ys = "" := by
  induction ys with
  | nil => rfl
  | cons y ys ih =>
    simp only [firstBeginAfterCommitHash]
    rw [if_neg, ih]
    · intro z hz; exact h z (List.mem_cons_of_mem _ hz)
    · simp [h y (List.mem_cons_self _ _)]

lemma firstBegin_append {ys1 rest : List OwlBotYamlAndPath}
    (h : ∀ z ∈ ys1, trimmedBeginHash z = "") :
    firstBeginAfterCommitHash (ys1 ++ rest) = firstBeginAfterCommitHash rest := by
  induction ys1 with
  | nil => rfl
  | cons y ys ih =>
    show firstBeginAfterCommitHash (y :: (ys ++ rest)) = _
    simp only [firstBeginAfterCommitHash]
    rw [if_neg, ih]
    · intro z hz; exact h z (List.mem_cons_of_mem _ hz)
    · simp [h y (List.mem_cons_self _ _)]

lemma isTooOld_congr {a b : List OwlBotYamlAndPath} {i : Nat} {hs : List String}
    (h : firstBeginAfterCommitHash a = firstBeginAfterCommitHash b) :
    isCommitHashTooOld (some a) i hs = isCommitHashTooOld (some b) i hs := by
  simp only [isCommitHashTooOld, Option.getD, h]

lemma isTooOld_false_of_empty {ys : List OwlBotYamlAndPath} {i : Nat}
    {hs : List String} (h : firstBeginAfterCommitHash ys = "") :
    isCommitHashTooOld (some ys) i hs = false := by
  simp [isCommitHashTooOld, h]

lemma isTooOld_of_firstBegin {ys : List OwlBotYamlAndPath} {H : String}
    (hH : firstBeginAfterCommitHash ys = H) (hne : H ≠ "")
    (i : Nat) (hs : List String) :
    isCommitHashTooOld (some ys) i hs =
      (decide (jsIndexOf hs H ≥ 0) && decide (jsIndexOf hs H ≤ (i : Int))) := by
  simp [isCommitHashTooOld, hH, hne]

/-! ## Claims -/

/-- C3: when the selected begin-after-commit-hash `H` first occurs at index
`k` of the commit-hash list, `isCommitHashTooOld` returns true exactly for
commit indices `i ≥ k`; when `H` does not occur at all it returns false for
every index. -/
theorem claim_C3 (yamls : List OwlBotYamlAndPath) (hashes : List String)
    (H : String) (k : Nat)
    (hsel : firstBeginAfterCommitHash yamls = H) (hne : H ≠ "") :
    (H ∈ hashes → List.indexOf H hashes = k →
      ∀ i, isCommitHashTooOld (some yamls) i hashes = decide (k ≤ i)) ∧
    (H ∉ hashes → ∀ i, isCommitHashTooOld (some yamls) i hashes = false) := by
  constructor
  · intro hmem hidx i
    rw [isTooOld_of_firstBegin hsel hne]
    have hj : jsIndexOf hashes H = (k : Int) := by simp [jsIndexOf, hmem, hidx]
    rw [hj]
    by_cases hki : k ≤ i
    · simp [hki, Int.ofNat_nonneg]
    · simp [hki]
  · intro hmem i
    rw [isTooOld_of_firstBegin hsel hne]
    simp [jsIndexOf, hmem]

/-- Witness for C3 at a concrete three-commit history with the boundary at
index 1: the commit at index 2 is reported too old. -/
theorem claim_C3_witness :
    ("h2" ∈ ["h1", "h2", "h3"] ∧
      isCommitHashTooOld (some [⟨"/a", ⟨some "h2"⟩⟩]) 2 ["h1", "h2", "h3"] =
        decide (1 ≤ 2)) :=
  ⟨by decide,
    (claim_C3 [⟨"/a", ⟨some "h2"⟩⟩] ["h1", "h2", "h3"] "h2" 1 (by decide)
      (by decide)).1 (by decide) (by decide) 2⟩

/-- C4: the staleness filter selects the first config (in config-list order)
with a non-empty trimmed begin-after-commit-hash, ignoring all later configs;
and when no config declares one it reports false for every index and every
history. -/
theorem claim_C4 (ys1 ys2 yamls : List OwlBotYamlAndPath)
    (y : OwlBotYamlAndPath) (i : Nat) (hashes : List String) :
    ((∀ z ∈ ys1, trimmedBeginHash z = "") → trimmedBeginHash y ≠ "" →
      firstBeginAfterCommitHash (ys1 ++ y :: ys2) = trimmedBeginHash y ∧
      isCommitHashTooOld (some (ys1 ++ y :: ys2)) i hashes =
        isCommitHashTooOld (some [y]) i hashes) ∧
    ((∀ z ∈ yamls, trimmedBeginHash z = "") →
      isCommitHashTooOld (some yamls) i hashes = false) := by
  constructor
  · intro h1 hy
    have hf : firstBeginAfterCommitHash (ys1 ++ y :: ys2) =
        trimmedBeginHash y := by
      rw [firstBegin_append h1]
      simp only [firstBeginAfterCommitHash]
      rw [if_pos hy]
    refine ⟨hf, ?_⟩
    apply isTooOld_congr
    rw [hf]
    simp only [firstBeginAfterCommitHash]
    rw [if_pos hy]
  · intro hall
    exact isTooOld_false_of_empty (firstBegin_all_empty hall)

/-- Witness for C4: a leading whitespace-only config is skipped and the
middle config's hash is the selected boundary, the trailing config being
ignored. -/
theorem claim_C4_witness :
    firstBeginAfterCommitHash
        ([⟨"/x", ⟨some "  "⟩⟩] ++ ⟨"/a", ⟨some "h2"⟩⟩ ::
          [⟨"/b", ⟨some "h9"⟩⟩]) =
      trimmedBeginHash ⟨"/a", ⟨some "h2"⟩⟩ ∧
    isCommitHashTooOld
        (some ([⟨"/x", ⟨some "  "⟩⟩] ++ ⟨"/a", ⟨some "h2"⟩⟩ ::
          [⟨"/b", ⟨some "h9"⟩⟩])) 1 ["h1", "h2"] =
      isCommitHashTooOld (some [⟨"/a", ⟨some "h2"⟩⟩]) 1 ["h1", "h2"] :=
  (claim_C4 [⟨"/x", ⟨some "  "⟩⟩] [⟨"/b", ⟨some "h9"⟩⟩] []
      ⟨"/a", ⟨some "h2"⟩⟩ 1 ["h1", "h2"]).1 (by decide) (by decide)

/-- C10: `isCommitHashTooOld` is total at its boundary: an `undefined` yamls
argument yields false for every index and history, and a whitespace-only
begin-after-commit-hash is treated exactly like an absent one (skipped, and
never stale on its own). -/
theorem claim_C10 :
    (∀ (i : Nat) (hashes : List String),
      isCommitHashTooOld none i hashes = false) ∧
    (∀ (s : String), jsTrim s = "" →
      ∀ (p : String) (ys : List OwlBotYamlAndPath) (i : Nat)
        (hashes : List String),
        isCommitHashTooOld (some (⟨p, ⟨some s⟩⟩ :: ys)) i hashes =
          isCommitHashTooOld (some ys) i hashes ∧
        isCommitHashTooOld (some [⟨p, ⟨some s⟩⟩]) i hashes = false) := by
  constructor
  · intro i hashes
    rfl
  · intro s hs p ys i hashes
    have hz : trimmedBeginHash ⟨p, ⟨some s⟩⟩ = "" := by
      simp [trimmedBeginHash, hs]
    constructor
    · apply isTooOld_congr
      simp only [firstBeginAfterCommitHash]
      rw [if_neg]
      simp [hz]
    · apply isTooOld_false_of_empty
      apply firstBegin_all_empty
      intro z hzz
      rcases List.mem_singleton.mp hzz with rfl
      exact hz

/-- Witness for C10: a config whose boundary is two spaces is never stale. -/
theorem claim_C10_witness :
    jsTrim "  " = "" ∧
    isCommitHashTooOld (some [⟨"/a", ⟨some "  "⟩⟩]) 0 ["h1"] = false :=
  ⟨by decide,
    ((claim_C10.2 "  " (by decide)) "/a" [] 0 ["h1"]).2⟩

/-- A concrete collaborator environment: a single commit touching `a/b.txt`,
one affected repo with two config paths, a ledger with no records. -/
def env0 : ScanEnv :=
  { getFilesModifiedBySha := fun _ => ["a/b.txt"]
  , findReposAffectedByFileChanges := fun _ =>
      [⟨"googleapis/nodejs-vision",
        [⟨"/a/.OwlBot.yaml", ⟨none⟩⟩, ⟨"/b/.OwlBot.yaml", ⟨none⟩⟩]⟩]
  , findBuildForCopy := fun _ _ => none
  , copyTagFrom := fun p h => p ++ ":" ++ h }

/-- C2: for one (repo, commit) pair with a non-empty todo list, the
aggregator emits one combined `Todo` holding all config paths when the count
strictly exceeds `combinePullsThreshold`, and otherwise one single-path
`Todo` per config path; and a non-stale repo's pushed todos are exactly the
aggregation of that one pair's own todo list, so the decision never sees any
cumulative count across commits. -/
theorem claim_C2 (env : ScanEnv) (t : Nat) (hashes : List String)
    (i : Nat) (h : String) (repo : AffectedRepo) (r hc : String)
    (yamls : List String) :
    (yamls ≠ [] →
      (yamls.length > t → aggregateTodos t r hc yamls = [⟨r, hc, yamls⟩]) ∧
      (yamls.length ≤ t →
        aggregateTodos t r hc yamls = yamls.map fun y => ⟨r, hc, [y]⟩)) ∧
    (isCommitHashTooOld (some repo.yamls) i hashes = false →
      processRepo env t hashes i h repo =
        aggregateTodos t repo.repo h (todoYamlsFor env repo h)) := by
  constructor
  · intro hne
    constructor
    · intro hgt
      unfold aggregateTodos
      rw [if_pos (List.length_pos.mpr hne), if_pos hgt]
    · intro hle
      unfold aggregateTodos
      rw [if_pos (List.length_pos.mpr hne), if_neg (by omega)]
  · intro hold
    simp [processRepo, hold]

/-- Witness for C2: two todo paths are combined when the threshold is 1 and
kept separate when it is 2. -/
theorem claim_C2_witness :
    aggregateTodos 1 "r" "c" ["/a", "/b"] = [⟨"r", "c", ["/a", "/b"]⟩] ∧
    aggregateTodos 2 "r" "c" ["/a", "/b"] =
      [⟨"r", "c", ["/a"]⟩, ⟨"r", "c", ["/b"]⟩] :=
  ⟨((claim_C2 env0 1 [] 0 "c" ⟨"r", []⟩ "r" "c" ["/a", "/b"]).1
      (by decide)).1 (by decide),
    ((claim_C2 env0 2 [] 0 "c" ⟨"r", []⟩ "r" "c" ["/a", "/b"]).1
      (by decide)).2 (by decide)⟩

/-- C1 fails on the code: for the single-commit, one-repo, two-path,
no-ledger-record scenario, threshold 1 does not give two separate todos and
threshold 2 does not give one combined todo — the code does exactly the
opposite. -/
theorem claim_C1_counterexample :
    ¬ ((scanTodoStack env0 1 ["abc"]).length = 2 ∧
       (scanTodoStack env0 2 ["abc"]).length = 1) := by decide

/-- C1 amended: for a single commit affecting one repo with exactly two
un-ledgered config paths, `combinePullsThreshold = 1` yields exactly one
combined `Todo` holding both paths, and `combinePullsThreshold = 2` yields
two separate single-path `Todo` items (the opposite pairing of the original
claim). -/
theorem claim_C1_amended_ok :
    (∀ r hc p1 p2 : String,
      aggregateTodos 1 r hc [p1, p2] = [⟨r, hc, [p1, p2]⟩] ∧
      aggregateTodos 2 r hc [p1, p2] = [⟨r, hc, [p1]⟩, ⟨r, hc, [p2]⟩]) ∧
    scanTodoStack env0 1 ["abc"] =
      [⟨"googleapis/nodejs-vision", "abc",
        ["/a/.OwlBot.yaml", "/b/.OwlBot.yaml"]⟩] ∧
    scanTodoStack env0 2 ["abc"] =
      [⟨"googleapis/nodejs-vision", "abc", ["/a/.OwlBot.yaml"]⟩,
       ⟨"googleapis/nodejs-vision", "abc", ["/b/.OwlBot.yaml"]⟩] :=
  ⟨fun r hc p1 p2 => ⟨rfl, rfl⟩, by decide, by decide⟩

/-- C7: the replay driver performs exactly one copy/PR invocation per pushed
`Todo`, in exactly the reverse of push order; in particular a stack pushed as
[newest, middle, oldest] is replayed oldest first. Temporal order is the
list order of `replayCalls`, the loop being sequential. -/
theorem claim_C7 (stack : List Todo) (tNew tMid tOld : Todo) :
    replayCalls stack = (stack.map copyCallOf).reverse ∧
    (replayCalls stack).length = stack.length ∧
    replayCalls [tNew, tMid, tOld] =
      [copyCallOf tOld, copyCallOf tMid, copyCallOf tNew] := by
  refine ⟨?_, ?_, rfl⟩
  · simp [replayCalls]
  · simp [replayCalls]

/-- C8: the procedure's return value equals both the number of replay
invocations executed and the number of todos pushed during scanning. -/
theorem claim_C8 (env : ScanEnv) (t : Nat) (hashes : List String) :
    scanGoogleapisGenAndCreatePullRequests env t hashes =
      (replayCalls (scanTodoStack env t hashes)).length ∧
    scanGoogleapisGenAndCreatePullRequests env t hashes =
      (scanTodoStack env t hashes).length := by
  refine ⟨?_, rfl⟩
  simp [scanGoogleapisGenAndCreatePullRequests, replayCalls]

lemma startsWithSlash_normalizePath (f : String) :
    startsWithSlash (normalizePath f) = true := by
  unfold normalizePath
  by_cases hf : startsWithSlash f
  · rwa [if_pos hf]
  · rw [if_neg hf]
    simp [startsWithSlash]

/-- C9: every path handed to `findReposAffectedByFileChanges` begins with a
slash, the normalization map is idempotent, and the repos query receives
exactly the normalized touched-file list. -/
theorem claim_C9 (env : ScanEnv) (h : String) :
    (∀ p ∈ touchedFilesFor env h, startsWithSlash p = true) ∧
    (∀ f, normalizePath (normalizePath f) = normalizePath f) ∧
    reposForCommit env h =
      env.findReposAffectedByFileChanges (touchedFilesFor env h) := by
  refine ⟨?_, ?_, rfl⟩
  · intro p hp
    rcases List.mem_map.mp hp with ⟨f, _, rfl⟩
    exact startsWithSlash_normalizePath f
  · intro f
    have hs := startsWithSlash_normalizePath f
    show (if startsWithSlash (normalizePath f) = true then normalizePath f
      else "/" ++ normalizePath f) = normalizePath f
    rw [if_pos hs]

/-- Witness for C9: the touched file `a/b.txt` of the concrete environment
reaches the configs store as `/a/b.txt`, slash first. -/
theorem claim_C9_witness :
    "/a/b.txt" ∈ touchedFilesFor env0 "abc" ∧
    startsWithSlash "/a/b.txt" = true :=
  ⟨by decide, (claim_C9 env0 "abc").1 "/a/b.txt" (by decide)⟩

/-! ## Helper lemmas on the dedup filter and the scan loop -/

lemma mem_todoYamlsFor {env : ScanEnv} {repo : AffectedRepo} {h p : String}
    (hp : p ∈ todoYamlsFor env repo h) :
    isTruthy (env.findBuildForCopy repo.repo (env.copyTagFrom p h)) = false := by
  rcases List.mem_map.mp hp with ⟨y, hy, rfl⟩
  have := (List.mem_filter.mp hy).2
  simpa using this

lemma processRepo_excludes {env : ScanEnv} {t : Nat} {hashes : List String}
    {i : Nat} {h : String} {repo : AffectedRepo} {td : Todo}
    (htd : td ∈ processRepo env t hashes i h repo) :
    td.repo = repo.repo ∧ td.commitHash = h ∧
      ∀ p ∈ td.yamlPaths,
        isTruthy (env.findBuildForCopy repo.repo (env.copyTagFrom p h)) =
          false := by
  unfold processRepo at htd
  split at htd
  · simp at htd
  · unfold aggregateTodos at htd
    split at htd
    · split at htd
      · rcases List.mem_singleton.mp htd with rfl
        exact ⟨rfl, rfl, fun p hp => mem_todoYamlsFor hp⟩
      · rcases List.mem_map.mp htd with ⟨y, hy, rfl⟩
        refine ⟨rfl, rfl, ?_⟩
        intro p hp
        rcases List.mem_singleton.mp hp with rfl
        exact mem_todoYamlsFor hy
    · simp at htd

lemma commitTodos_excludes {env : ScanEnv} {t : Nat} {hashes : List String}
    {i : Nat} {h : String} {td : Todo}
    (htd : td ∈ commitTodos env t hashes i h) :
    td.commitHash = h ∧
      ∀ p ∈ td.yamlPaths,
        isTruthy (env.findBuildForCopy td.repo (env.copyTagFrom p h)) =
          false := by
  rcases List.mem_flatMap.mp htd with ⟨repo, _, hmem⟩
  obtain ⟨hr, hh, hps⟩ := processRepo_excludes hmem
  refine ⟨hh, ?_⟩
  rw [hr]
  exact hps

lemma scanFrom_fst_mem {env : ScanEnv} {t : Nat} {hashes : List String}
    {td : Todo} : ∀ (rest : List String) (i : Nat) (stack : List Todo),
    td ∈ (scanFrom env t hashes i rest stack).1 →
    td ∈ stack ∨ ∃ j h, td ∈ commitTodos env t hashes j h
  | [], _, _, htd => Or.inl htd
  | h :: rest, i, stack, htd => by
    simp only [scanFrom] at htd
    by_cases hstop : stopHere env t hashes i h = true
    · rw [if_pos hstop] at htd
      rcases List.mem_append.mp htd with h1 | h2
      · exact Or.inl h1
      · exact Or.inr ⟨i, h, h2⟩
    · rw [if_neg hstop] at htd
      rcases scanFrom_fst_mem rest (i + 1) _ htd with h1 | h2
      · rcases List.mem_append.mp h1 with ha | hb
        · exact Or.inl ha
        · exact Or.inr ⟨i, h, hb⟩
      · exact Or.inr h2

/-- Like `env0`, but the copy-state ledger holds a record for the tag of
`(/a/.OwlBot.yaml, abc)`, so only `/b/.OwlBot.yaml` remains to do. -/
def env1 : ScanEnv :=
  { getFilesModifiedBySha := fun _ => ["a/b.txt"]
  , findReposAffectedByFileChanges := fun _ =>
      [⟨"googleapis/nodejs-vision",
        [⟨"/a/.OwlBot.yaml", ⟨none⟩⟩, ⟨"/b/.OwlBot.yaml", ⟨none⟩⟩]⟩]
  , findBuildForCopy := fun _ tag =>
      if tag = "/a/.OwlBot.yaml:abc" then some "build-1" else none
  , copyTagFrom := fun p h => p ++ ":" ++ h }

/-- C5: when the ledger has a record under `(r, tag(p, h))`, the config path
`p` appears in no `Todo` ever pushed for repo `r` and commit `h`, and hence
in no executed copy invocation; config paths without a record are added to
the todo list. -/
theorem claim_C5 (env : ScanEnv) (t : Nat) (hashes : List String)
    (r p h : String)
    (hrec : isTruthy (env.findBuildForCopy r (env.copyTagFrom p h)) = true) :
    (∀ td ∈ scanTodoStack env t hashes, td.repo = r → td.commitHash = h →
      p ∉ td.yamlPaths) ∧
    (∀ c ∈ replayCalls (scanTodoStack env t hashes), c.destRepo = r →
      c.sourceRepoCommitHash = h → p ∉ c.yamlPaths) ∧
    (∀ (repo : AffectedRepo) (y : OwlBotYamlAndPath), y ∈ repo.yamls →
      isTruthy (env.findBuildForCopy repo.repo (env.copyTagFrom y.path h)) =
        false →
      y.path ∈ todoYamlsFor env repo h) := by
  have main : ∀ td ∈ scanTodoStack env t hashes, td.repo = r →
      td.commitHash = h → p ∉ td.yamlPaths := by
    intro td htd hr hh hp
    rcases scanFrom_fst_mem hashes 0 [] htd with h1 | ⟨j, h2, hmem⟩
    · exact absurd h1 (List.not_mem_nil td)
    · obtain ⟨hch, hps⟩ := commitTodos_excludes hmem
      have h2h : h2 = h := hch.symm.trans hh
      have hfalse := hps p hp
      rw [hr, h2h] at hfalse
      rw [hfalse] at hrec
      simp at hrec
  refine ⟨main, ?_, ?_⟩
  · intro c hc hcr hch hcp
    rcases List.mem_map.mp hc with ⟨td, htd, rfl⟩
    exact main td (List.mem_reverse.mp htd) hcr hch hcp
  · intro repo y hy hfalse
    exact List.mem_map.mpr
      ⟨y, List.mem_filter.mpr ⟨hy, by simp [hfalse]⟩, rfl⟩

/-- Witness for C5: with a ledger record for `/a/.OwlBot.yaml` only, the one
todo the scan pushes carries `/b/.OwlBot.yaml` and excludes
`/a/.OwlBot.yaml`. -/
theorem claim_C5_witness :
    isTruthy (env1.findBuildForCopy "googleapis/nodejs-vision"
      (env1.copyTagFrom "/a/.OwlBot.yaml" "abc")) = true ∧
    (⟨"googleapis/nodejs-vision", "abc", ["/b/.OwlBot.yaml"]⟩ : Todo) ∈
      scanTodoStack env1 5 ["abc"] ∧
    "/a/.OwlBot.yaml" ∉
      (⟨"googleapis/nodejs-vision", "abc", ["/b/.OwlBot.yaml"]⟩ :
        Todo).yamlPaths :=
  ⟨by decide, by decide,
    (claim_C5 env1 5 ["abc"] "googleapis/nodejs-vision" "/a/.OwlBot.yaml"
      "abc" (by decide)).1 _ (by decide) rfl rfl⟩

lemma scanFrom_snd_spec (env : ScanEnv) (t : Nat) (hashes : List String) :
    ∀ (rest : List String) (i : Nat) (stack : List Todo),
    (scanFrom env t hashes i rest stack).2 =
      (match specStopPrefixLen env t hashes i rest with
       | some n => rest.take n
       | none => rest)
  | [], _, _ => rfl
  | h :: rest, i, stack => by
    by_cases hstop : stopHere env t hashes i h = true
    · simp only [scanFrom, specStopPrefixLen, if_pos hstop]
      rfl
    · simp only [scanFrom, specStopPrefixLen, if_neg hstop]
      rw [scanFrom_snd_spec env t hashes rest (i + 1)
        (stack ++ commitTodos env t hashes i h)]
      cases hsp : specStopPrefixLen env t hashes (i + 1) rest with
      | none => simp
      | some n => simp [List.take]

/-- Like `env0`, but no repo is ever affected. -/
def env2 : ScanEnv :=
  { env0 with findReposAffectedByFileChanges := fun _ => [] }

/-- Like `env0`, but every (config path, commit) pair is already recorded in
the ledger, so every affected commit yields zero new todos. -/
def env3 : ScanEnv :=
  { env0 with findBuildForCopy := fun _ _ => some "build-9" }

/-- C6: the commits the scan examines are exactly the history truncated just
after the first commit whose processing affected at least one repo yet
pushed zero new todos (`specScannedCommits`), so no older commit is ever
examined; and a commit affecting zero repos never triggers the stop. -/
theorem claim_C6 (env : ScanEnv) (t : Nat) (hashes : List String) :
    scannedCommits env t hashes = specScannedCommits env t hashes ∧
    (∀ (i : Nat) (h : String), (reposForCommit env h).length = 0 →
      stopHere env t hashes i h = false) := by
  constructor
  · unfold scannedCommits specScannedCommits
    exact scanFrom_snd_spec env t hashes hashes 0 []
  · intro i h hz
    simp [stopHere, hz]

/-- Witness for C6: a commit affecting zero repos does not stop the scan,
and in a three-commit history whose first commit is fully ledger-covered the
scan examines only that first commit. -/
theorem claim_C6_witness :
    (reposForCommit env2 "c1").length = 0 ∧
    stopHere env2 1 ["c1"] 0 "c1" = false ∧
    scannedCommits env3 9 ["c1", "c2", "c3"] = ["c1"] :=
  ⟨by decide, (claim_C6 env2 1 ["c1"]).2 0 "c1" (by decide),
    (claim_C6 env3 9 ["c1", "c2", "c3"]).1.trans (by decide)⟩

end OwlBot
